import Mathlib

/-!
Verification of the `il-elections` preprocessing pipeline against its
natural-language specification.  Each Python source function relevant to a
claim is shallowly embedded as an executable Lean definition; filesystem
state is passed explicitly, Python exceptions become `Except` errors, and
CPython numeric casts are modelled on exact rationals.
-/

set_option maxHeartbeats 1000000

namespace IlElections

/-! ## Generic helpers (association lists standing for Python dicts / filesystems) -/

deriving instance DecidableEq for Except

/-- Lookup in an association list (first binding wins, like a lookup on a
pandas index that is assumed unique, or a filesystem path map). -/
def alookup {α : Type} : List (String × α) → String → Option α
  | [], _ => none
  | (k, v) :: rest, key => if k = key then some v else alookup rest key

/-- Store a binding, replacing an existing one for the same key. -/
def astore {α : Type} : List (String × α) → String → α → List (String × α)
  | [], key, v => [(key, v)]
  | (k, w) :: rest, key, v =>
    if k = key then (key, v) :: rest else (k, w) :: astore rest key v

/-! ## `il_elections/utils/locally_memoize.py` -/

/-- Python errors that the memoization layer can raise.  The
missing-cached-result error carries the function name and the offending
arguments, exactly as the f-string in `_lazily_run_function` does. -/
inductive MemoizeError (α : Type) : Type
  | missingCachedResult (funcName : String) (args : α)
deriving DecidableEq

/-- Outcome of one memoized call: the returned value, the cache filesystem
after the call, and whether the wrapped function was actually invoked. -/
structure MemoizeOutcome (α β : Type) : Type where
  result : β
  files : List (String × β)
  invoked : Bool
deriving DecidableEq

/-- `_lazily_run_function(func, cache_folder, cache_only)`, applied to one
argument tuple `args`.

* `pickleDumps` stands for `pickle.dumps((args, kwargs))` (a byte string),
  `sha256Hex` for `hashlib.sha256(...).hexdigest()`.
* The cache filesystem maps file paths to already-deserialized results
  (`pickle.load (pickle.dump x) = x`, so the serialization round-trip is
  modelled as the identity).
-/
def lazily_run_function {α β : Type} (funcName : String) (func : α → β)
    (pickleDumps : α → List Nat) (sha256Hex : List Nat → String)
    (cacheFolder : String) (cacheOnly : Bool)
    (files : List (String × β)) (args : α) :
    Except (MemoizeError α) (MemoizeOutcome α β) :=
  let argsHash := sha256Hex (pickleDumps args)
  let cacheFile := cacheFolder ++ "/" ++ argsHash
  match alookup files cacheFile with
  | some cached => .ok ⟨cached, files, false⟩
  | none =>
    if cacheOnly then
      .error (.missingCachedResult funcName args)
    else
      let result := func args
      .ok ⟨result, astore files cacheFile result, true⟩

/-- Default cache root `.locally_memoize` from `_locally_memoize`. -/
def DEFAULT_CACHE_LOCATION_PATH : String := ".locally_memoize"

/-- The per-function cache subdirectory computed by `_locally_memoize`
(`cache_location_path / func.__name__`). -/
def function_cache_path (cacheLocationPath : Option String) (funcName : String) : String :=
  (cacheLocationPath.getD DEFAULT_CACHE_LOCATION_PATH) ++ "/" ++ funcName

/-! ## `il_elections/data/geodata_fetcher.py` — the decoration of `_geocode_address` -/

/-- Keyword parameters accepted by `locally_memoize(...)` (its Python
signature: `cache_location_path`, `clear_cache_on_code_change`,
`cache_only`). -/
def locally_memoize_accepted_kwargs : List String :=
  ["cache_location_path", "clear_cache_on_code_change", "cache_only"]

/-- CPython call semantics for keyword arguments: a keyword not in the
callee signature raises `TypeError: ... got an unexpected keyword
argument ...`. -/
def py_call_kwargs_check (accepted given : List String) : Except String Unit :=
  match given.find? (fun k => !accepted.contains k) with
  | some k => .error ("TypeError: got an unexpected keyword argument " ++ k)
  | none => .ok ()

/-- The decorator application at module scope of `geodata_fetcher.py`:
`locally_memoize.locally_memoize(cache_only=_CACHE_ONLY_MODE,
ignore_values=(None,))`, modelled as the keyword-argument check the call
performs before any body runs. -/
def geodata_fetcher_decoration : Except String Unit :=
  py_call_kwargs_check locally_memoize_accepted_kwargs ["cache_only", "ignore_values"]

/-- Monadic map over `Except`, written by explicit recursion so that proofs
can proceed by structural induction (CPython evaluates comprehensions and
`apply` loops left to right and propagates the first raised exception,
which is exactly this order). -/
def emapM {α β ε : Type} (f : α → Except ε β) : List α → Except ε (List β)
  | [] => .ok []
  | x :: xs =>
    match f x, emapM f xs with
    | .error e, _ => .error e
    | .ok _, .error e => .error e
    | .ok y, .ok ys => .ok (y :: ys)

/-- Monadic map over `Option`, by explicit recursion. -/
def omapM {α β : Type} (f : α → Option β) : List α → Option (List β)
  | [] => some []
  | x :: xs =>
    match f x, omapM f xs with
    | some y, some ys => some (y :: ys)
    | _, _ => none

/-! ## `il_elections/data/parsers.py` -/

def isDigitChar (c : Char) : Bool := '0' ≤ c && c ≤ '9'

/-- Digits of the integer/fraction part of a decimal literal, as parsed by
CPython `float(s)`: `s` must be digits with at most one dot and at least one
digit overall, otherwise `ValueError` (modelled as `none`).  Returns
`(integer digits, fraction digits)`. -/
def splitDecimal (s : String) : Option (List Char × List Char) :=
  let cs := s.toList
  let intPart := cs.takeWhile isDigitChar
  let rest := cs.dropWhile isDigitChar
  match rest with
  | [] => if intPart.isEmpty then none else some (intPart, [])
  | '.' :: frac =>
    if frac.all isDigitChar && !(intPart.isEmpty && frac.isEmpty) then
      some (intPart, frac)
    else none
  | _ => none

/-- `str(float(s))` for a short nonnegative decimal literal `s`:
CPython prints the shortest round-trip decimal, which for inputs whose
value needs at most a few significant digits (ballot ids like `"3.1"`,
`"57"`) equals the literal with leading integer zeros and trailing
fraction zeros removed and at least one digit on each side of the dot
(`"57" ↦ "57.0"`, `"003.10" ↦ "3.1"`).  `none` models the `ValueError`
of `float(s)` on a malformed literal. -/
def astype_float_str (s : String) : Option String :=
  (splitDecimal s).map fun (ip, fp) =>
    let ip := ip.dropWhile (fun c => c = '0')
    let fp := (fp.reverse.dropWhile (fun c => c = '0')).reverse
    let ip := if ip.isEmpty then ['0'] else ip
    let fp := if fp.isEmpty then ['0'] else fp
    String.mk (ip ++ '.' :: fp)

/-- `re.subn(' \" ', '\"', text)`: left-to-right non-overlapping replacement
of a space-quote-space run by a bare quote. -/
def replace_space_quote_space : List Char → List Char
  | ' ' :: '"' :: ' ' :: rest => '"' :: replace_space_quote_space rest
  | c :: rest => c :: replace_space_quote_space rest
  | [] => []

/-- `BallotsMetadataPDFParser._clean_text`: `None` passes through (`pd.isna`),
otherwise collapse every whitespace character to a space, collapse `' \" '`
to `'\"'`, reverse the character order (extracted right-to-left text), and
strip surrounding whitespace. -/
def clean_text (text : Option String) : Option String :=
  match text with
  | none => none
  | some t =>
    let cs := t.toList.map (fun c => if c.isWhitespace then ' ' else c)
    let cs := replace_space_quote_space cs
    some (String.mk cs.reverse).trim

/-- Keep only digit and `.` characters
(`.str.replace('[^0-9.]', '', regex=True)`). -/
def filter_digits_dot (s : String) : String :=
  String.mk (s.toList.filter (fun c => isDigitChar c || c = '.'))

/-- One row of the manually-converted Excel file read by the PDF parser
(`pd.read_excel(converted_file_path)`), restricted to the columns the
parser touches.  `vaada` is the `'הדעו למס'` committee-code column used to
drop the repeated per-page table header; cells may be NA. -/
structure PdfXlsxRow where
  vaada : Option String
  ballot_id : Option String
  locality_id : Option String
  locality_name : Option String
  location_name : Option String
  address : Option String
deriving DecidableEq

/-- One output row of a ballots-metadata parser (`data.BallotsMetadata`
columns; a cell can still be NA in the PDF path). -/
structure MetaRow where
  ballot_id : Option String
  locality_id : Option String
  locality_name : Option String
  location_name : Option String
  address : Option String
deriving DecidableEq

/-- Per-row transformation of `BallotsMetadataPDFParser.parse` after the
header-row filter: clean the three text columns, digit-filter and
float-normalize `ballot_id` (a malformed ballot id raises `ValueError` in
`astype(float)`). -/
def pdf_transform_row (r : PdfXlsxRow) : Except String MetaRow :=
  match r.ballot_id.map (fun b => astype_float_str (filter_digits_dot b)) with
  | some none => .error "ValueError: could not convert string to float"
  | bid =>
    .ok { ballot_id := bid.join,
          locality_id := r.locality_id,
          locality_name := clean_text r.locality_name,
          location_name := clean_text r.location_name,
          address := clean_text r.address }

/-- `BallotsMetadataPDFParser.parse`.  The filesystem `fs` maps sibling file
paths to tabular contents; the parser looks for the manually-converted
Excel file `path + '.xlsx'` and raises `ValueError` when it is absent.  The
result pairs the parsed rows with the list of files the call wrote (the
code writes none). -/
def BallotsMetadataPDFParser_parse (fs : List (String × List PdfXlsxRow)) (path : String) :
    Except String (List MetaRow × List String) :=
  let converted := path ++ ".xlsx"
  match alookup fs converted with
  | none => .error "ValueError: PDFParser expects to find an Excel format file for the required PDF"
  | some rows =>
    let rows := rows.filter (fun r => !(r.vaada == some "הדעו למס"))
    match emapM pdf_transform_row rows with
    | .error e => .error e
    | .ok outRows => .ok (outRows, ([] : List String))

/-- The `_HEBREW_TO_ENGLISH_TRASCRIBE` dict literal, in source order. -/
def HEBREW_TO_ENGLISH_TRASCRIBE : List (Char × String) :=
  [('א', "a"), ('ב', "b"), ('ג', "g"), ('ד', "d"), ('ה', "h"), ('ו', "v"),
   ('ז', "z"), ('ח', "H"), ('ט', "t"), ('י', "i"), ('כ', "k"), ('ך', "k."),
   ('ל', "l"), ('מ', "m"), ('ם', "m."), ('נ', "n"), ('ן', "n."), ('ס', "s"),
   ('ע', "A"), ('פ', "p"), ('ף', "p."), ('צ', "Z"), ('ץ', "Z."), ('ק', "K"),
   ('ר', "r"), ('ש', "S"), ('ת', "T")]

/-- Python dict construction from a literal: first occurrence fixes the
position, a later binding for the same key overwrites the value. -/
def py_dict_insert (d : List (Char × String)) (k : Char) (v : String) : List (Char × String) :=
  match d with
  | [] => [(k, v)]
  | (k0, v0) :: rest => if k0 = k then (k0, v) :: rest else (k0, v0) :: py_dict_insert rest k v

def py_dict (l : List (Char × String)) : List (Char × String) :=
  l.foldl (fun d kv => py_dict_insert d kv.1 kv.2) []

/-- The module-scope assertion condition of `parsers.py`:
`len(_HEBREW_TO_ENGLISH_TRASCRIBE.values()) == len(_HEBREW_TO_ENGLISH_TRASCRIBE)`.
`dict.values()` is a view with one element per dict entry. -/
def transcribe_assert_condition (d : List (Char × String)) : Bool :=
  (d.map Prod.snd).length == d.length

/-- Lookup in a `Char`-keyed association list. -/
def alookupChar : List (Char × String) → Char → Option String
  | [], _ => none
  | (k, v) :: rest, key => if k = key then some v else alookupChar rest key

/-- `_heb_to_eng`: transliterate every character through the table; a
character absent from the dict raises `KeyError` (modelled as `none`). -/
def heb_to_eng (text : String) : Option String :=
  (omapM (fun c => alookupChar (py_dict HEBREW_TO_ENGLISH_TRASCRIBE) c) text.toList).map
    (fun parts => String.join parts)

/-- One row of the in-memory table produced by `pd.read_csv` /
`pd.read_excel` in `BallotsVotesFileParser.parse`, after the unnamed- and
ignored-column drops, restricted to the columns the parser transforms.
`parties` holds the remaining per-party count columns keyed by their
source-language header. -/
structure VotesRawRow where
  ballot_id : String
  locality_id : String
  locality_name : String
  parties : List (String × Int)
deriving DecidableEq

/-- One output row of `BallotsVotesFileParser.parse`. -/
structure VotesRow where
  ballot_id : String
  locality_id : String
  locality_name : String
  parties_votes : List (String × Int)
deriving DecidableEq

/-- Per-row transformation of `BallotsVotesFileParser.parse` (lines
195-205): `ballot_id` goes through `astype(float).astype('string')`,
locality id/name through `astype('string')`, and every party column header
through `_heb_to_eng`. -/
def votes_transform_row (r : VotesRawRow) : Except String VotesRow :=
  match astype_float_str r.ballot_id with
  | none => .error "ValueError: could not convert string to float"
  | some bid =>
    match emapM (fun p =>
        match heb_to_eng p.1 with
        | some name => Except.ok (name, p.2)
        | none => Except.error "KeyError") r.parties with
    | .error e => .error e
    | .ok parties =>
      .ok { ballot_id := bid, locality_id := r.locality_id,
            locality_name := r.locality_name, parties_votes := parties }

/-- `BallotsVotesFileParser`: `__init__` rejects format names other than
`'excel'` and `'csv'`; `parse` only uses the format to choose the file
reader (`read_csv` vs `read_excel`), so given the same in-memory table the
downstream transformation is shared.  The embedding takes that table as
input. -/
def BallotsVotesFileParser_parse (format_name : String) (table : List VotesRawRow) :
    Except String (List VotesRow) :=
  if format_name = "csv" || format_name = "excel" then
    emapM votes_transform_row table
  else
    .error "Unsupported format"

/-! ## `il_elections/pipelines/preprocessing/preprocessing.py` — the three-tier join -/

def isNonzeroDigit (c : Char) : Bool := '1' ≤ c && c ≤ '9'

/-- `str.replace(r'\.[1-9]+', '.0', regex=True)`: every dot followed by a
maximal nonempty run of the digits 1-9 becomes `.0` (leftmost, greedy,
non-overlapping — the regex engine order).  `inRun` records that the scan
is inside a run whose replacement `.0` has already been emitted. -/
def drop_subballot_chars (inRun : Bool) : List Char → List Char
  | [] => []
  | c :: rest =>
    if inRun && isNonzeroDigit c then
      drop_subballot_chars true rest
    else if c = '.' then
      match rest with
      | d :: _ =>
        if isNonzeroDigit d then '.' :: '0' :: drop_subballot_chars true rest
        else '.' :: drop_subballot_chars false rest
      | [] => ['.']
    else
      c :: drop_subballot_chars false rest

def drop_subballot (s : String) : String :=
  String.mk (drop_subballot_chars false s.toList)

/-- The votes-side columns that feed the join (`locality_id`, `ballot_id`;
the vote-count payload travels with the row unchanged through every tier
and is elided). -/
structure JVotesRow where
  locality_id : String
  ballot_id : String
deriving DecidableEq

/-- An enriched metadata row at join time: identifiers plus the metadata
columns that survive `metadata_df.drop(votes_df.columns)` —
`location_name`, `address` and the enrichment results `lat`/`lng` (NaN
modelled as `none`; coordinates as exact rationals). -/
structure JMetaRow where
  locality_id : String
  ballot_id : String
  location_name : Option String
  address : Option String
  lat : Option ℚ
  lng : Option ℚ
deriving DecidableEq

/-- `_get_ballot_index` for one row. -/
def ballot_index (locality_id ballot_id : String) (dropSub : Bool) : String :=
  locality_id ++ "-" ++ (if dropSub then drop_subballot ballot_id else ballot_id)

def meta_index (m : JMetaRow) : String :=
  m.locality_id ++ "-" ++ m.ballot_id

/-- Right side of a pandas left merge against the metadata index.  The
pipeline relies on the metadata index being unique (a duplicated right
index would blow up the row count and break the `.loc` assignment), so the
lookup takes the first matching row. -/
def meta_lookup (meta : List JMetaRow) (key : String) : Option JMetaRow :=
  meta.find? (fun m => meta_index m == key)

/-- One row of the merged dataframe `df`: the votes row plus the merged
metadata columns (all NA when the merge found no match). -/
structure MergedRow where
  votes : JVotesRow
  location_name : Option String
  address : Option String
  lat : Option ℚ
  lng : Option ℚ
deriving DecidableEq

def merge_row (v : JVotesRow) : Option JMetaRow → MergedRow
  | some m => ⟨v, m.location_name, m.address, m.lat, m.lng⟩
  | none => ⟨v, none, none, none, none⟩

/-- Tier 1: exact match on `locality_id + '-' + ballot_id`. -/
def tier1_row (meta : List JMetaRow) (v : JVotesRow) : MergedRow :=
  merge_row v (meta_lookup meta (ballot_index v.locality_id v.ballot_id false))

/-- Tier 2: the same merge but with the votes-side sub-station suffix
rewritten to `.0` before matching. -/
def tier2_row (meta : List JMetaRow) (v : JVotesRow) : MergedRow :=
  merge_row v (meta_lookup meta (ballot_index v.locality_id v.ballot_id true))

/-- pandas `Series.mean` under `groupby(...).agg(np.mean)`: NaN entries are
skipped; an all-NaN (or empty) group yields NaN. -/
def rat_mean (l : List ℚ) : Option ℚ :=
  if l.isEmpty then none else some (l.sum / (l.length : ℚ))

def locality_mean_lat (meta : List JMetaRow) (loc : String) : Option ℚ :=
  rat_mean ((meta.filter (fun m => m.locality_id == loc)).filterMap (fun m => m.lat))

def locality_mean_lng (meta : List JMetaRow) (loc : String) : Option ℚ :=
  rat_mean ((meta.filter (fun m => m.locality_id == loc)).filterMap (fun m => m.lng))

/-- Tier 3: merge on `locality_id` alone against the per-locality mean
coordinates.  The merge result carries only the votes columns plus
`lat`/`lng`, so the `.loc` assignment fills `location_name`/`address` of
the replaced rows with NaN. -/
def tier3_row (meta : List JMetaRow) (v : JVotesRow) : MergedRow :=
  ⟨v, none, none, locality_mean_lat meta v.locality_id,
   locality_mean_lng meta v.locality_id⟩

/-- `df['lat'].isnull() | df['lng'].isnull()` for one row. -/
def row_missing (r : MergedRow) : Bool :=
  r.lat.isNone || r.lng.isNone

/-- `df.loc[missing_idxs] = <merge of votes_df.loc[missing_idxs]>`: exactly
the rows currently missing a coordinate are replaced by the given re-merge
of their votes row; all other rows are left untouched. -/
def apply_tier_update (df : List MergedRow) (upd : JVotesRow → MergedRow) : List MergedRow :=
  df.map (fun r => if row_missing r then upd r.votes else r)

/-- The join portion of `preprocess` (lines 269-298): tier 1 on the exact
index, then the sub-ballot re-merge on the rows still missing `lat`/`lng`,
then the locality-mean merge on the rows still missing after that. -/
def preprocess_join (meta : List JMetaRow) (votes : List JVotesRow) : List MergedRow :=
  let df1 := votes.map (tier1_row meta)
  let df2 := apply_tier_update df1 (tier2_row meta)
  apply_tier_update df2 (tier3_row meta)

/-! ## `il_elections/pipelines/preprocessing/preprocessing_main.py` — the output loop -/

/-- Observable actions of one campaign's trip through the pipeline and the
CLI loop body, in execution order. -/
inductive PipelineAction : Type
  | load (campaign : String)
  | enrich (campaign : String)
  | mergeTiers (campaign : String)
  | deleteFile (path : String)
  | writeFile (path : String)
  | report (campaign : String)
deriving DecidableEq

inductive CliError : Type
  | fileNotFound (path : String)
deriving DecidableEq

/-- What `preprocessing.preprocess` has done for a campaign by the time its
`yield` delivers the dataframe to the caller: both source files parsed
(`load_raw_campaign_data`), geocoding enrichment run, and the three merge
tiers computed. -/
def preprocess_campaign_trace (campaign : String) : List PipelineAction :=
  [.load campaign, .enrich campaign, .mergeTiers campaign]

/-- `pathlib.Path.unlink()` (no `missing_ok`): removing an absent file
raises `FileNotFoundError`. -/
def path_unlink (fs : List String) (p : String) : Except CliError (List String) :=
  if fs.contains p then .ok (fs.erase p) else .error (.fileNotFound p)

/-- One iteration of the `for campaign_metadata, campaign_df in
preprocessed_data_iter` loop of `main` (lines 82-103): the generator body
has already fully processed the campaign when the loop body starts; then
the existence check on the two output paths decides between silent skip
(`continue`), delete-then-rewrite (override), or plain write, each write
followed by the analysis report.  Returns the filesystem after the
iteration together with the action trace. -/
def main_campaign_step (override : Bool) (fs : List String) (campaign : String) :
    Except CliError (List String × List PipelineAction) :=
  let tr := preprocess_campaign_trace campaign
  let metadata_path := campaign ++ ".metadata"
  let data_path := campaign ++ ".data"
  if fs.contains data_path || fs.contains metadata_path then
    if override then
      match path_unlink fs data_path with
      | .error e => .error e
      | .ok fs1 =>
        match path_unlink fs1 metadata_path with
        | .error e => .error e
        | .ok fs2 =>
          .ok (data_path :: metadata_path :: fs2,
               tr ++ [.deleteFile data_path, .deleteFile metadata_path,
                      .writeFile metadata_path, .writeFile data_path, .report campaign])
    else
      .ok (fs, tr)
  else
    .ok (data_path :: metadata_path :: fs,
         tr ++ [.writeFile metadata_path, .writeFile data_path, .report campaign])

/-! ## `il_elections/utils/plot_utils.py` — per-location tooltip -/

inductive PyErr : Type
  | zeroDivision
  | indexError
deriving DecidableEq

/-- Python truthiness of `limit_num_parties` (`x or default`). -/
def py_truthy_nat : Option Nat → Bool
  | none => false
  | some n => n != 0

/-- Python truthiness of `top_pct_coverage` (`... if top_pct_coverage else ...`). -/
def py_truthy_rat : Option ℚ → Bool
  | none => false
  | some q => q != 0

/-- Stable insertion preserving descending order of the share component:
an element is placed before the first strictly-smaller share and after all
earlier elements with an equal or larger share — the order produced by
CPython `sorted(..., key=lambda x: x[1], reverse=True)`, which is stable. -/
def insert_desc (x : String × ℚ) : List (String × ℚ) → List (String × ℚ)
  | [] => [x]
  | y :: ys => if y.2 ≤ x.2 then x :: y :: ys else y :: insert_desc x ys

def sort_desc_by_share : List (String × ℚ) → List (String × ℚ)
  | [] => []
  | x :: xs => insert_desc x (sort_desc_by_share xs)

/-- `np.cumsum` (no leading zero). -/
def cumsum (acc : ℚ) : List ℚ → List ℚ
  | [] => []
  | x :: xs => (acc + x) :: cumsum (acc + x) xs

/-- `np.where(cond)[0][0]`: index of the first element satisfying the
condition, `IndexError` (`none`) when there is none. -/
def np_where_first (p : ℚ → Bool) : List ℚ → Option Nat
  | [] => none
  | x :: xs => if p x then some 0 else (np_where_first p xs).map (· + 1)

/-- Lines 113-118 of `plot_utils.py`: the normalized share list
(`v / total_votes` per party), sorted descending by share, with zero
shares optionally removed.  Factored out of `generate_tooltip_parties` so
theorems can speak about the pre-truncation list. -/
def tooltip_sorted_parties (parties_votes : List (String × Int))
    (remove_zero_votes : Bool) : List (String × ℚ) :=
  let total : Int := (parties_votes.map Prod.snd).sum
  let normed := parties_votes.map (fun p => (p.1, (p.2 : ℚ) / (total : ℚ)))
  let sorted0 := sort_desc_by_share normed
  if remove_zero_votes then sorted0.filter (fun x => x.2 != 0) else sorted0

/-- Specification-side reading of the cumulative-share cutoff: the number
of leading shares needed for the running sum to strictly exceed `p`. -/
def least_exceed (p acc : ℚ) : List ℚ → Nat
  | [] => 0
  | s :: rest => if p < acc + s then 1 else 1 + least_exceed p (acc + s) rest

/-- `generate_tooltip_html_for_per_location_row`, up to the party list that
the HTML template receives (`parties_data`): the locality/ballot string
fields and the template rendering are elided.  `parties_votes` is the
row's party→count dict.

* `v / total_votes` on Python ints raises `ZeroDivisionError` when
  `total_votes == 0` and the dict comprehension has at least one element.
* `np.where(np.cumsum(...) > top_pct_coverage)[0][0]` raises `IndexError`
  when no cumulative share exceeds the cutoff.
-/
def generate_tooltip_parties (parties_votes : List (String × Int))
    (limit_num_parties : Option Nat) (top_pct_coverage : Option ℚ)
    (remove_zero_votes : Bool) : Except PyErr (List (String × Int × ℚ)) :=
  let total : Int := (parties_votes.map Prod.snd).sum
  if total = 0 && !parties_votes.isEmpty then
    .error .zeroDivision
  else
    let sorted1 := tooltip_sorted_parties parties_votes remove_zero_votes
    let aVal := if py_truthy_nat limit_num_parties
                then limit_num_parties.getD 0 else sorted1.length
    let bRes : Except PyErr Nat :=
      if py_truthy_rat top_pct_coverage then
        match np_where_first (fun s => decide (top_pct_coverage.getD 0 < s))
            (cumsum 0 (sorted1.map Prod.snd)) with
        | some i => .ok (i + 1)
        | none => .error .indexError
      else .ok sorted1.length
    match bRes with
    | .error e => .error e
    | .ok bVal =>
      let sorted2 := sorted1.take (min aVal bVal)
      .ok (sorted2.map (fun x => (x.1, (alookup parties_votes x.1).getD 0, x.2)))

/-! ## `il_elections/utils/debug_utils.py` — candidate grouping -/

/-- CPython `enumerate`. -/
def py_enumerate {α : Type} (i : Nat) : List α → List (Nat × α)
  | [] => []
  | x :: xs => (i, x) :: py_enumerate (i + 1) xs

/-- `geodata_fetcher.GeoDataResults`. -/
structure GeoDataResults where
  longitude : ℚ
  latitude : ℚ
deriving DecidableEq

/-- Lexicographic `≤` on the sort key `(x[2].longitude, x[2].latitude)`. -/
def geo_key_le (a b : ℚ × ℚ) : Bool :=
  a.1 < b.1 || (a.1 == b.1 && a.2 ≤ b.2)

def insert_geo (x : (ℚ × ℚ) × Nat × String) :
    List ((ℚ × ℚ) × Nat × String) → List ((ℚ × ℚ) × Nat × String)
  | [] => [x]
  | y :: ys => if geo_key_le x.1 y.1 then x :: y :: ys else y :: insert_geo x ys

/-- CPython `sorted` on the geo key (ties keep original order; with the
full lexicographic key, tied elements are interchangeable anyway). -/
def sort_geo : List ((ℚ × ℚ) × Nat × String) → List ((ℚ × ℚ) × Nat × String)
  | [] => []
  | x :: xs => insert_geo x (sort_geo xs)

/-- `itertools.groupby`: split a list into maximal runs of consecutive
elements with equal key. -/
def group_runs : List ((ℚ × ℚ) × Nat × String) →
    List (((ℚ × ℚ) × Nat × String) × List ((ℚ × ℚ) × Nat × String))
  | [] => []
  | x :: xs =>
    match group_runs xs with
    | [] => [(x, [])]
    | (y, g) :: rest => if x.1 == y.1 then (x, y :: g) :: rest else (x, []) :: (y, g) :: rest

/-- `min(idx for idx, _, _ in group)`. -/
def group_min_idx (head : (ℚ × ℚ) × Nat × String) (tl : List ((ℚ × ℚ) × Nat × String)) : Nat :=
  tl.foldl (fun acc x => Nat.min acc x.2.1) head.2.1

/-- The fixed marker palette of `debug_ballot_geodata_fetching`. -/
def debug_colors : List String := ["darkred", "red", "lightred", "lightred"]

/-- `debug_ballot_geodata_fetching` from the point where the per-candidate
fetch results are in hand (`fetched_locations`, the list of
`(address, fetcher.fetch_geocode_data(address))` pairs in candidate
order).  The `sorted(..., key=lambda x: (x[2].longitude, x[2].latitude))`
key evaluation raises `AttributeError` on an absent fetch result; building
the markers indexes `colors[min_idx]`, an `IndexError` when out of range.
Returns, per distinct coordinate, the coordinate, the grouped
`(try-order, address)` pairs and the minimal try-order rank. -/
def debug_group_candidates (fetched : List (String × Option GeoDataResults)) :
    Except String (List (GeoDataResults × List (Nat × String) × Nat)) :=
  let indexed := py_enumerate 0 fetched
  match emapM (fun x =>
      match x.2.2 with
      | some g => .ok ((g.longitude, g.latitude), x.1, x.2.1)
      | none => .error "AttributeError: NoneType object has no attribute longitude")
    indexed with
  | .error e => .error e
  | .ok keyed =>
    let grouped := group_runs (sort_geo keyed)
    let results := grouped.map (fun g =>
      (GeoDataResults.mk g.1.1.1 g.1.1.2,
       (g.1 :: g.2).map (fun x => (x.2.1, x.2.2)),
       group_min_idx g.1 g.2))
    match emapM (fun r =>
        if r.2.2 < debug_colors.length then .ok () else Except.error "IndexError")
      results with
    | .error e => .error e
    | .ok _ => .ok results

/-! ## Shared lemmas -/

theorem emapM_forall₂ {α β ε : Type} (f : α → Except ε β) :
    ∀ (l : List α) (out : List β), emapM f l = .ok out →
      List.Forall₂ (fun a b => f a = .ok b) l out := by
  intro l
  induction l with
  | nil =>
    intro out h
    simp only [emapM] at h
    cases h
    exact List.Forall₂.nil
  | cons x xs ih =>
    intro out h
    simp only [emapM] at h
    cases hx : f x with
    | error e => rw [hx] at h; cases h
    | ok y =>
      rw [hx] at h
      cases hxs : emapM f xs with
      | error e => rw [hxs] at h; cases h
      | ok ys =>
        rw [hxs] at h
        cases h
        exact List.Forall₂.cons hx (ih ys hxs)

theorem emapM_ok_iff {α β ε : Type} (f : α → Except ε β) (l : List α) :
    (∃ out, emapM f l = .ok out) ↔ ∀ a ∈ l, ∃ b, f a = .ok b := by
  induction l with
  | nil => simp [emapM]
  | cons x xs ih =>
    constructor
    · rintro ⟨out, h⟩
      simp only [emapM] at h
      cases hx : f x with
      | error e => rw [hx] at h; cases h
      | ok y =>
        rw [hx] at h
        cases hxs : emapM f xs with
        | error e => rw [hxs] at h; cases h
        | ok ys =>
          intro a ha
          rcases List.mem_cons.mp ha with rfl | ha
          · exact ⟨y, hx⟩
          · exact (ih.mp ⟨ys, hxs⟩) a ha
    · intro hall
      rcases hall x (List.mem_cons_self x xs) with ⟨y, hy⟩
      rcases ih.mpr (fun a ha => hall a (List.mem_cons_of_mem x ha)) with ⟨ys, hys⟩
      exact ⟨y :: ys, by simp only [emapM, hy, hys]⟩

theorem string_append_ne_of_ne {t u : String} (h : t ≠ u) (s : String) :
    s ++ t ≠ s ++ u := by
  intro he
  apply h
  have hd := congrArg String.data he
  rw [String.data_append, String.data_append] at hd
  exact String.ext (List.append_cancel_left hd)

/-! ## Claim theorems -/

/-- Claim C7 (code_bug evidence): the transliteration table itself is
value-unique — its 27 (not 26) declared source characters map to pairwise
distinct Latin tokens — but the module-scope assertion cannot guarantee
that: its condition `len(values()) == len(dict)` is true for every dict,
including one where two source characters share the same token. -/
theorem transcribe_table_unique_but_assert_vacuous :
    ((py_dict HEBREW_TO_ENGLISH_TRASCRIBE).map Prod.snd).Nodup
    ∧ (py_dict HEBREW_TO_ENGLISH_TRASCRIBE).length = 27
    ∧ (∀ d : List (Char × String), transcribe_assert_condition d = true)
    ∧ transcribe_assert_condition (py_dict [('א', "a"), ('ב', "a")]) = true
    ∧ ¬ ((py_dict [('א', "a"), ('ב', "a")]).map Prod.snd).Nodup := by
  refine ⟨by decide, by decide, ?_, by decide, by decide⟩
  intro d
  simp [transcribe_assert_condition]

/-- Claim C4 (code_bug evidence): the decoration of `_geocode_address`
passes the keyword `ignore_values` to `locally_memoize`, whose signature
does not accept it, so importing the module raises a `TypeError`; and the
memoization layer itself has no skip-empty-results logic — a computed
`None` result is written to the cache like any other value. -/
theorem geocode_memoize_ignore_values_type_error :
    geodata_fetcher_decoration
      = .error "TypeError: got an unexpected keyword argument ignore_values"
    ∧ lazily_run_function "geocode_address"
        (fun _ : String × String => (none : Option GeoDataResults))
        (fun _ => []) (fun _ => "h")
        (function_cache_path none "geocode_address") false [] ("address", "key")
      = .ok ⟨none, [(".locally_memoize/geocode_address/h", none)], true⟩ := by
  exact ⟨rfl, rfl⟩

/-- Claim C3: one memoized call keys the cache file by the digest of the
serialized argument pair inside the per-function folder; a hit returns the
stored value without invoking the function, a miss in cache-only mode
fails naming the function and the arguments, and a miss otherwise invokes
the function, stores the result under that key and returns it. -/
theorem lazily_run_function_cache_semantics {α β : Type}
    (funcName : String) (func : α → β)
    (pickleDumps : α → List Nat) (sha256Hex : List Nat → String)
    (cacheFolder : String) (cacheOnly : Bool)
    (files : List (String × β)) (args : α) :
    (∀ cached,
      alookup files (cacheFolder ++ "/" ++ sha256Hex (pickleDumps args)) = some cached →
      lazily_run_function funcName func pickleDumps sha256Hex cacheFolder cacheOnly files args
        = .ok ⟨cached, files, false⟩)
    ∧ (alookup files (cacheFolder ++ "/" ++ sha256Hex (pickleDumps args)) = none →
      cacheOnly = true →
      lazily_run_function funcName func pickleDumps sha256Hex cacheFolder cacheOnly files args
        = .error (.missingCachedResult funcName args))
    ∧ (alookup files (cacheFolder ++ "/" ++ sha256Hex (pickleDumps args)) = none →
      cacheOnly = false →
      lazily_run_function funcName func pickleDumps sha256Hex cacheFolder cacheOnly files args
        = .ok ⟨func args,
               astore files (cacheFolder ++ "/" ++ sha256Hex (pickleDumps args)) (func args),
               true⟩) := by
  refine ⟨?_, ?_, ?_⟩
  · intro cached h
    simp only [lazily_run_function, h]
  · intro h hco
    simp only [lazily_run_function, h, hco, if_true]
  · intro h hco
    simp only [lazily_run_function, h, hco, if_false, Bool.false_eq_true]

theorem lazily_run_function_cache_semantics_witness :
    alookup ([] : List (String × Nat)) ("c" ++ "/" ++ "h") = none
    ∧ lazily_run_function "f" (fun n : Nat => n + 1) (fun _ => [0]) (fun _ => "h")
        "c" false [] 3
      = .ok ⟨4, [("c/h", 4)], true⟩ :=
  ⟨rfl,
   (lazily_run_function_cache_semantics "f" (fun n : Nat => n + 1) (fun _ => [0])
      (fun _ => "h") "c" false [] 3).2.2 rfl rfl⟩

/-- Claim C5 counterexample: with the override flag set and only the
metadata file present, the loop body does not delete-and-regenerate both
files — `data_path.unlink()` raises `FileNotFoundError`. -/
theorem main_override_single_file_counterexample :
    main_campaign_step true ["c.metadata"] "c" = .error (.fileNotFound "c.data")
    ∧ (main_campaign_step true ["c.metadata"] "c").isOk = false := by
  exact ⟨rfl, rfl⟩

/-- Claim C5 (amended): when either output file exists and override is
unset, the campaign is skipped silently with the filesystem unchanged;
with override set, both files are deleted and regenerated when both
exist, but when only one of the two exists the unlink of the missing one
raises `FileNotFoundError` (after deleting the data file if that was the
one present). -/
theorem main_campaign_step_skip_override_semantics
    (override : Bool) (fs : List String) (campaign : String) :
    ((campaign ++ ".data") ∈ fs ∨ (campaign ++ ".metadata") ∈ fs →
      override = false →
      main_campaign_step override fs campaign
        = .ok (fs, preprocess_campaign_trace campaign))
    ∧ ((campaign ++ ".data") ∈ fs → (campaign ++ ".metadata") ∈ fs →
      override = true →
      main_campaign_step override fs campaign
        = .ok ((campaign ++ ".data") :: (campaign ++ ".metadata")
                 :: ((fs.erase (campaign ++ ".data")).erase (campaign ++ ".metadata")),
               preprocess_campaign_trace campaign
                 ++ [.deleteFile (campaign ++ ".data"),
                     .deleteFile (campaign ++ ".metadata"),
                     .writeFile (campaign ++ ".metadata"),
                     .writeFile (campaign ++ ".data"),
                     .report campaign]))
    ∧ ((campaign ++ ".data") ∉ fs → (campaign ++ ".metadata") ∈ fs →
      override = true →
      main_campaign_step override fs campaign
        = .error (.fileNotFound (campaign ++ ".data")))
    ∧ ((campaign ++ ".data") ∈ fs → (campaign ++ ".metadata") ∉ fs →
      override = true →
      main_campaign_step override fs campaign
        = .error (.fileNotFound (campaign ++ ".metadata"))) := by
  refine ⟨?_, ?_, ?_, ?_⟩
  · intro hmem hov
    simp [main_campaign_step, hov, hmem]
  · intro hd hm hov
    have hne : (campaign ++ ".metadata") ≠ (campaign ++ ".data") :=
      string_append_ne_of_ne (by decide) campaign
    have hm2 : (campaign ++ ".metadata") ∈ fs.erase (campaign ++ ".data") :=
      (List.mem_erase_of_ne hne).mpr hm
    simp [main_campaign_step, path_unlink, hov, hd, hm2]
  · intro hd hm hov
    simp [main_campaign_step, path_unlink, hov, hd, hm]
  · intro hd hm hov
    have hm2 : (campaign ++ ".metadata") ∉ fs.erase (campaign ++ ".data") :=
      fun h => hm (List.mem_of_mem_erase h)
    simp [main_campaign_step, path_unlink, hov, hd, hm2]

theorem main_campaign_step_skip_override_semantics_witness :
    main_campaign_step false ["c.metadata"] "c"
      = .ok (["c.metadata"], preprocess_campaign_trace "c")
    ∧ main_campaign_step true ["c.data", "c.metadata"] "c"
      = .ok (["c.data", "c.metadata"],
             preprocess_campaign_trace "c"
               ++ [.deleteFile ("c" ++ ".data"), .deleteFile ("c" ++ ".metadata"),
                   .writeFile ("c" ++ ".metadata"), .writeFile ("c" ++ ".data"),
                   .report "c"]) := by
  constructor
  · exact (main_campaign_step_skip_override_semantics false ["c.metadata"] "c").1
      (Or.inr (by decide)) rfl
  · exact (main_campaign_step_skip_override_semantics true ["c.data", "c.metadata"] "c").2.1
      (by decide) (by decide) rfl

/-- Claim C9: in every successful loop iteration the full processing trace
(load both source files, enrich, run the merge tiers) is a prefix of the
iteration's actions — the generator has already done that work before the
existence check — and the skip branch (files exist, override unset) leaves
the filesystem untouched and performs no file write, no delete and no
report beyond that processing. -/
theorem main_skip_processes_campaign_before_check
    (override : Bool) (fs : List String) (campaign : String) :
    (∀ r, main_campaign_step override fs campaign = .ok r →
      r.2.take (preprocess_campaign_trace campaign).length
        = preprocess_campaign_trace campaign)
    ∧ ((campaign ++ ".data") ∈ fs ∨ (campaign ++ ".metadata") ∈ fs →
      override = false →
      main_campaign_step override fs campaign
        = .ok (fs, preprocess_campaign_trace campaign)
      ∧ ∀ p, PipelineAction.writeFile p ∉ preprocess_campaign_trace campaign
           ∧ PipelineAction.deleteFile p ∉ preprocess_campaign_trace campaign) := by
  constructor
  · intro r h
    simp only [main_campaign_step] at h
    split at h
    · split at h
      · by_cases hd : (campaign ++ ".data") ∈ fs
        · by_cases hm : (campaign ++ ".metadata") ∈ fs.erase (campaign ++ ".data")
          · simp [path_unlink, hd, hm] at h
            rw [← h]
            exact List.take_left _ _
          · simp [path_unlink, hd, hm] at h
        · simp [path_unlink, hd] at h
      · cases h
        dsimp only
        simp
    · cases h
      dsimp only
      exact List.take_left _ _
  · intro hmem hov
    refine ⟨(main_campaign_step_skip_override_semantics override fs campaign).1 hmem hov, ?_⟩
    intro p
    constructor <;> simp [preprocess_campaign_trace]

theorem main_skip_processes_campaign_before_check_witness :
    main_campaign_step false ["x.data"] "x"
      = .ok (["x.data"], preprocess_campaign_trace "x")
    ∧ (preprocess_campaign_trace "x").take (preprocess_campaign_trace "x").length
      = preprocess_campaign_trace "x" := by
  have h := main_skip_processes_campaign_before_check false ["x.data"] "x"
  have h2 := (h.2 (Or.inl (by decide)) rfl).1
  exact ⟨h2, h.1 (["x.data"], preprocess_campaign_trace "x") h2⟩

/-- Claim C1 counterexample: with only the sibling `.cached-csv` file
present (the cache the spec describes), parsing fails instead of loading
it; and a successful parse (sibling `.xlsx` present) writes no file at
all, so no `.cached-csv` cache is ever produced. -/
theorem pdf_parser_ignores_cached_csv_counterexample :
    BallotsMetadataPDFParser_parse [("f.pdf.cached-csv", [])] "f.pdf"
      = .error "ValueError: PDFParser expects to find an Excel format file for the required PDF"
    ∧ BallotsMetadataPDFParser_parse [("f.pdf.xlsx", [])] "f.pdf" = .ok ([], []) := by
  exact ⟨rfl, rfl⟩

/-- Claim C1 (amended): the PDF-format metadata parser performs no table
extraction and keeps no CSV cache — its outcome depends only on the
manually-converted sibling `.xlsx` file, it fails when that file is
absent, and a successful parse writes nothing. -/
theorem pdf_parser_requires_manual_xlsx
    (fs₁ fs₂ : List (String × List PdfXlsxRow)) (path : String) :
    (alookup fs₁ (path ++ ".xlsx") = alookup fs₂ (path ++ ".xlsx") →
      BallotsMetadataPDFParser_parse fs₁ path = BallotsMetadataPDFParser_parse fs₂ path)
    ∧ (alookup fs₁ (path ++ ".xlsx") = none →
      BallotsMetadataPDFParser_parse fs₁ path
        = .error "ValueError: PDFParser expects to find an Excel format file for the required PDF")
    ∧ (∀ r, BallotsMetadataPDFParser_parse fs₁ path = .ok r → r.2 = []) := by
  refine ⟨?_, ?_, ?_⟩
  · intro h
    simp only [BallotsMetadataPDFParser_parse, h]
  · intro h
    simp only [BallotsMetadataPDFParser_parse, h]
  · intro r h
    simp only [BallotsMetadataPDFParser_parse] at h
    cases hl : alookup fs₁ (path ++ ".xlsx") with
    | none => rw [hl] at h; cases h
    | some rows =>
      rw [hl] at h
      cases hres : emapM pdf_transform_row
          (List.filter (fun r => !(r.vaada == some "הדעו למס")) rows) with
      | error e => simp [hres] at h
      | ok outRows =>
        simp [hres] at h
        rw [← h]

theorem pdf_parser_requires_manual_xlsx_witness :
    BallotsMetadataPDFParser_parse [("f.pdf.xlsx", [])] "f.pdf"
      = BallotsMetadataPDFParser_parse
          [("f.pdf.xlsx", []), ("f.pdf.cached-csv", [])] "f.pdf" :=
  (pdf_parser_requires_manual_xlsx [("f.pdf.xlsx", [])]
    [("f.pdf.xlsx", []), ("f.pdf.cached-csv", [])] "f.pdf").1 (by decide)

/-- Claim C6 counterexample: the CSV variant does not cast ballot id
directly to text — the raw ballot id `"5"` comes out as `"5.0"` because
the `astype(float).astype('string')` cast runs for every format. -/
theorem votes_parser_csv_float_cast_counterexample :
    BallotsVotesFileParser_parse "csv"
      [{ ballot_id := "5", locality_id := "26", locality_name := "TA", parties := [] }]
      = .ok [{ ballot_id := "5.0", locality_id := "26", locality_name := "TA",
               parties_votes := [] }]
    ∧ ("5.0" : String) ≠ "5" := by
  exact ⟨rfl, by decide⟩

/-- Claim C6 (amended): the votes file parser treats ballot id identically
in the CSV and Excel variants — the format only selects the file reader —
and in both cases the output ballot id is the text of the float cast of
the raw value. -/
theorem votes_parser_format_independent_float_cast (table : List VotesRawRow) :
    BallotsVotesFileParser_parse "csv" table = BallotsVotesFileParser_parse "excel" table
    ∧ ∀ out, BallotsVotesFileParser_parse "csv" table = .ok out →
        List.Forall₂ (fun (r : VotesRawRow) (o : VotesRow) =>
          astype_float_str r.ballot_id = some o.ballot_id
          ∧ o.locality_id = r.locality_id ∧ o.locality_name = r.locality_name) table out := by
  constructor
  · simp [BallotsVotesFileParser_parse]
  · intro out h
    have h' : emapM votes_transform_row table = .ok out := by
      simpa [BallotsVotesFileParser_parse] using h
    refine (emapM_forall₂ votes_transform_row table out h').imp ?_
    intro r o hro
    simp only [votes_transform_row] at hro
    cases hb : astype_float_str r.ballot_id with
    | none => rw [hb] at hro; cases hro
    | some bid =>
      rw [hb] at hro
      cases hp : emapM (fun p =>
          match heb_to_eng p.1 with
          | some name => Except.ok (name, p.2)
          | none => Except.error "KeyError") r.parties with
      | error e => rw [hp] at hro; cases hro
      | ok parties =>
        rw [hp] at hro
        cases hro
        exact ⟨rfl, rfl, rfl⟩

theorem votes_parser_format_independent_float_cast_witness :
    astype_float_str "5" = some "5.0"
    ∧ BallotsVotesFileParser_parse "csv"
        [{ ballot_id := "5", locality_id := "26", locality_name := "TA", parties := [] }]
      = BallotsVotesFileParser_parse "excel"
        [{ ballot_id := "5", locality_id := "26", locality_name := "TA", parties := [] }] := by
  have h := votes_parser_format_independent_float_cast
    [{ ballot_id := "5", locality_id := "26", locality_name := "TA", parties := [] }]
  refine ⟨?_, h.1⟩
  have h2 := h.2
    [{ ballot_id := "5.0", locality_id := "26", locality_name := "TA", parties_votes := [] }]
    rfl
  exact (List.forall₂_cons.mp h2).1.1

theorem merge_row_votes (v : JVotesRow) (m : Option JMetaRow) : (merge_row v m).votes = v := by
  cases m <;> rfl

theorem tier1_row_votes (meta : List JMetaRow) (v : JVotesRow) :
    (tier1_row meta v).votes = v := merge_row_votes v _

theorem tier2_row_votes (meta : List JMetaRow) (v : JVotesRow) :
    (tier2_row meta v).votes = v := merge_row_votes v _

theorem preprocess_join_cons (meta : List JMetaRow) (v : JVotesRow) (votes : List JVotesRow) :
    preprocess_join meta (v :: votes)
      = (if row_missing (tier1_row meta v) = false then tier1_row meta v
         else if row_missing (tier2_row meta v) = false then tier2_row meta v
         else tier3_row meta v) :: preprocess_join meta votes := by
  simp only [preprocess_join, apply_tier_update, List.map_cons]
  congr 1
  cases h1 : row_missing (tier1_row meta v) with
  | false => simp [h1]
  | true =>
    cases h2 : row_missing (tier2_row meta v) with
    | false => simp [h1, h2, tier1_row_votes]
    | true => simp [h1, h2, tier1_row_votes, tier2_row_votes]

/-- Claim C2: the join runs its three tiers in order — exact index match,
then the sub-ballot `.0` re-merge applied only to rows still missing
`lat`/`lng`, then the per-locality metadata-mean merge applied only to
rows still missing after that — and a row resolved by an earlier tier is
never overwritten by a later one: each output row equals its tier-1 merge
when that carries coordinates, otherwise its tier-2 merge when that
carries coordinates, otherwise its tier-3 locality-mean row. -/
theorem preprocess_join_three_tier_no_overwrite (meta : List JMetaRow) (votes : List JVotesRow) :
    (preprocess_join meta votes).length = votes.length
    ∧ ∀ (i : Nat) (v : JVotesRow), votes[i]? = some v →
        (preprocess_join meta votes)[i]? = some (
          if row_missing (tier1_row meta v) = false then tier1_row meta v
          else if row_missing (tier2_row meta v) = false then tier2_row meta v
          else tier3_row meta v) := by
  induction votes with
  | nil =>
    refine ⟨rfl, ?_⟩
    intro i v h
    simp at h
  | cons x xs ih =>
    rw [preprocess_join_cons]
    refine ⟨by simp [ih.1], ?_⟩
    intro i v h
    cases i with
    | zero =>
      simp only [List.getElem?_cons_zero, Option.some.injEq] at h
      subst h
      simp
    | succ n =>
      simp only [List.getElem?_cons_succ] at h ⊢
      exact ih.2 n v h

theorem preprocess_join_three_tier_no_overwrite_witness :
    ([⟨"1", "2.0"⟩, ⟨"1", "2.1"⟩, ⟨"9", "7.0"⟩] : List JVotesRow)[1]? = some ⟨"1", "2.1"⟩
    ∧ (preprocess_join
        [{ locality_id := "1", ballot_id := "2.0", location_name := some "L",
           address := some "A", lat := some 3, lng := some 4 }]
        [⟨"1", "2.0"⟩, ⟨"1", "2.1"⟩, ⟨"9", "7.0"⟩])[1]?
      = some (tier2_row
          [{ locality_id := "1", ballot_id := "2.0", location_name := some "L",
             address := some "A", lat := some 3, lng := some 4 }]
          ⟨"1", "2.1"⟩) := by
  refine ⟨by decide, ?_⟩
  have h := (preprocess_join_three_tier_no_overwrite
    [{ locality_id := "1", ballot_id := "2.0", location_name := some "L",
       address := some "A", lat := some 3, lng := some 4 }]
    [⟨"1", "2.0"⟩, ⟨"1", "2.1"⟩, ⟨"9", "7.0"⟩]).2 1 ⟨"1", "2.1"⟩ (by decide)
  rw [h]
  decide

theorem insert_desc_perm (x : String × ℚ) (l : List (String × ℚ)) :
    (insert_desc x l).Perm (x :: l) := by
  induction l with
  | nil => exact List.Perm.refl _
  | cons y ys ih =>
    simp only [insert_desc]
    split
    · exact List.Perm.refl _
    · exact (ih.cons y).trans (List.Perm.swap x y ys)

theorem sort_desc_perm (l : List (String × ℚ)) : (sort_desc_by_share l).Perm l := by
  induction l with
  | nil => exact List.Perm.refl _
  | cons x xs ih => exact (insert_desc_perm x _).trans (ih.cons x)

theorem insert_desc_pairwise (x : String × ℚ) (l : List (String × ℚ))
    (h : l.Pairwise (fun a b => b.2 ≤ a.2)) :
    (insert_desc x l).Pairwise (fun a b => b.2 ≤ a.2) := by
  induction l with
  | nil => simp [insert_desc]
  | cons y ys ih =>
    rcases List.pairwise_cons.mp h with ⟨hy, hys⟩
    simp only [insert_desc]
    split
    case isTrue hle =>
      refine List.pairwise_cons.mpr ⟨?_, h⟩
      intro b hb
      rcases List.mem_cons.mp hb with rfl | hb
      · exact hle
      · exact le_trans (hy b hb) hle
    case isFalse hgt =>
      refine List.pairwise_cons.mpr ⟨?_, ih hys⟩
      intro b hb
      rcases List.mem_cons.mp ((insert_desc_perm x ys).mem_iff.mp hb) with rfl | hb
      · exact le_of_lt (lt_of_not_le hgt)
      · exact hy b hb

theorem sort_desc_pairwise (l : List (String × ℚ)) :
    (sort_desc_by_share l).Pairwise (fun a b => b.2 ≤ a.2) := by
  induction l with
  | nil => simp [sort_desc_by_share]
  | cons x xs ih => exact insert_desc_pairwise x _ ih

theorem cast_sum_snd (l : List (String × Int)) :
    (((l.map Prod.snd).sum : Int) : ℚ) = (l.map (fun p => ((p.2 : Int) : ℚ))).sum := by
  induction l with
  | nil => simp
  | cons x xs ih =>
    simp only [List.map_cons, List.sum_cons, Int.cast_add, ih]

theorem shares_sum_div (l : List (String × Int)) (t : ℚ) :
    ((l.map (fun p => (p.1, ((p.2 : Int) : ℚ) / t))).map Prod.snd).sum
      = (l.map (fun p => ((p.2 : Int) : ℚ))).sum / t := by
  induction l with
  | nil => simp
  | cons x xs ih =>
    simp only [List.map_cons, List.sum_cons, ih]
    rw [add_div]

theorem filter_ne_zero_sum (l : List (String × ℚ)) :
    ((l.filter (fun x => x.2 != 0)).map Prod.snd).sum = (l.map Prod.snd).sum := by
  induction l with
  | nil => rfl
  | cons x xs ih =>
    by_cases hx : x.2 = 0
    · simp [List.filter_cons, hx, ih]
    · simp [List.filter_cons, hx, ih]

theorem least_exceed_le_length (l : List ℚ) : ∀ (p acc : ℚ), least_exceed p acc l ≤ l.length := by
  induction l with
  | nil => intro p acc; simp [least_exceed]
  | cons s rest ih =>
    intro p acc
    simp only [least_exceed, List.length_cons]
    split
    · omega
    · have := ih p (acc + s)
      omega

theorem np_where_first_cumsum (l : List ℚ) : ∀ (p acc : ℚ), p < acc + l.sum → l ≠ [] →
    np_where_first (fun s => decide (p < s)) (cumsum acc l)
      = some (least_exceed p acc l - 1)
    ∧ 1 ≤ least_exceed p acc l := by
  induction l with
  | nil => intro p acc _ hne; exact absurd rfl hne
  | cons s rest ih =>
    intro p acc hsum _
    by_cases hx : p < acc + s
    · refine ⟨?_, ?_⟩
      · simp [cumsum, np_where_first, least_exceed, hx]
      · simp [least_exceed, hx]
    · have hrstsum : p < (acc + s) + rest.sum := by
        simp only [List.sum_cons] at hsum
        linarith
      have hrne : rest ≠ [] := by
        intro he
        subst he
        simp only [List.sum_nil, add_zero] at hrstsum
        exact hx hrstsum
      rcases ih p (acc + s) hrstsum hrne with ⟨h1, h2⟩
      have hle : least_exceed p acc (s :: rest) = 1 + least_exceed p (acc + s) rest := by
        simp [least_exceed, hx]
      have hnw : np_where_first (fun t => decide (p < t)) (cumsum acc (s :: rest))
          = (np_where_first (fun t => decide (p < t)) (cumsum (acc + s) rest)).map (· + 1) := by
        simp [np_where_first, cumsum, hx]
      refine ⟨?_, ?_⟩
      · rw [hnw, h1, hle]
        simp only [Option.map_some']
        congr 1
        omega
      · rw [hle]
        omega

theorem alookup_of_nodup {α : Type} (l : List (String × α)) :
    ∀ (k : String) (v : α), (l.map Prod.fst).Nodup → (k, v) ∈ l → alookup l k = some v := by
  induction l with
  | nil => intro k v _ hm; cases hm
  | cons x xs ih =>
    obtain ⟨k0, v0⟩ := x
    intro k v hn hm
    rcases List.nodup_cons.mp hn with ⟨hk0, hns⟩
    rcases List.mem_cons.mp hm with heq | hm
    · cases heq
      simp [alookup]
    · have hkne : k0 ≠ k := by
        intro he
        subst he
        exact hk0 (List.mem_map.mpr ⟨(k0, v), hm, rfl⟩)
      simp only [alookup, hkne, if_false]
      exact ih k v hns hm

/-- Sum of the shares the tooltip works with: one, whenever the total is
nonzero (the zero shares dropped by the filter contribute nothing). -/
theorem tooltip_shares_sum_one (parties : List (String × Int)) (rz : Bool)
    (htqne : ((((parties.map Prod.snd).sum : Int)) : ℚ) ≠ 0) :
    ((tooltip_sorted_parties parties rz).map Prod.snd).sum = 1 := by
  have hnormed :
      ((parties.map (fun p =>
          (p.1, ((p.2 : Int) : ℚ) / (((parties.map Prod.snd).sum : Int) : ℚ)))).map
        Prod.snd).sum = 1 := by
    rw [shares_sum_div, ← cast_sum_snd]
    exact div_self htqne
  have hsorted :
      ((sort_desc_by_share (parties.map (fun p =>
          (p.1, ((p.2 : Int) : ℚ) / (((parties.map Prod.snd).sum : Int) : ℚ))))).map
        Prod.snd).sum = 1 := by
    rw [List.Perm.sum_eq (List.Perm.map Prod.snd (sort_desc_perm _))]
    exact hnormed
  unfold tooltip_sorted_parties
  cases rz
  · simpa using hsorted
  · simpa [filter_ne_zero_sum] using hsorted

/-- With nonnegative per-party counts and a nonnegative total, every share
in the tooltip's sorted list is nonnegative. -/
theorem tooltip_shares_nonneg (parties : List (String × Int)) (rz : Bool)
    (hpos : ∀ x ∈ parties, 0 ≤ x.2)
    (htq : (0 : ℚ) ≤ (((parties.map Prod.snd).sum : Int) : ℚ)) :
    ∀ y ∈ (tooltip_sorted_parties parties rz).map Prod.snd, 0 ≤ y := by
  intro y hy
  rcases List.mem_map.mp hy with ⟨x, hx, rfl⟩
  have hx0 : x ∈ sort_desc_by_share (parties.map (fun p =>
      (p.1, ((p.2 : Int) : ℚ) / (((parties.map Prod.snd).sum : Int) : ℚ)))) := by
    unfold tooltip_sorted_parties at hx
    cases rz
    · simpa using hx
    · simp only [if_true] at hx
      exact List.mem_of_mem_filter hx
  rcases List.mem_map.mp ((sort_desc_perm _).mem_iff.mp hx0) with ⟨pr, hpr, rfl⟩
  exact div_nonneg (by exact_mod_cast hpos pr hpr) htq

/-- Running sums of nonnegative entries never exceed the final sum. -/
theorem cumsum_le_of_nonneg (l : List ℚ) :
    ∀ (acc : ℚ), (∀ x ∈ l, 0 ≤ x) → ∀ y ∈ cumsum acc l, y ≤ acc + l.sum := by
  induction l with
  | nil => intro acc _ y hy; cases hy
  | cons s rest ih =>
    intro acc hpos y hy
    simp only [cumsum] at hy
    rcases List.mem_cons.mp hy with rfl | hy
    · have : 0 ≤ rest.sum :=
        List.sum_nonneg (fun x hx => hpos x (List.mem_cons_of_mem _ hx))
      simp only [List.sum_cons]
      linarith
    · have := ih (acc + s) (fun x hx => hpos x (List.mem_cons_of_mem _ hx)) y hy
      simp only [List.sum_cons]
      linarith

theorem np_where_first_none (pred : ℚ → Bool) :
    ∀ (l : List ℚ), (∀ y ∈ l, pred y = false) → np_where_first pred l = none := by
  intro l
  induction l with
  | nil => intro _; rfl
  | cons x xs ih =>
    intro h
    simp [np_where_first, h x (List.mem_cons_self _ _),
          ih (fun y hy => h y (List.mem_cons_of_mem _ hy))]

/-- Claim C8 counterexample: three concrete divergences from the claimed
behavior.  A row whose total vote count is zero (one party with zero
votes) raises a division-by-zero error instead of showing no parties; a
cumulative-share cutoff of exactly 1 with a positive total raises an
`IndexError` because `np.where(cumsum > pct)[0][0]` finds no index; and at
a tie with the cutoff (shares one half and one half against cutoff one
half) the code shows both parties, not the single leading party that
already reaches the cutoff. -/
theorem tooltip_error_and_tie_counterexample :
    generate_tooltip_parties [("a", 0)] none none true = .error .zeroDivision
    ∧ (([("a", (0 : Int))].map Prod.snd).sum = 0)
    ∧ generate_tooltip_parties [("a", 1)] none (some 1) true = .error .indexError
    ∧ generate_tooltip_parties [("a", 1), ("b", 1)] none (some (1/2)) true
        = .ok [("a", 1, 1/2), ("b", 1, 1/2)]
    ∧ ([("a", (1 : Int), (1/2 : ℚ)), ("b", 1, 1/2)].length ≠ 1) := by
  refine ⟨rfl, rfl, ?_, ?_, by decide⟩
  · norm_num [generate_tooltip_parties, tooltip_sorted_parties, sort_desc_by_share, insert_desc,
              np_where_first, cumsum, py_truthy_rat, py_truthy_nat, alookup]
  · norm_num [generate_tooltip_parties, tooltip_sorted_parties, sort_desc_by_share, insert_desc,
              np_where_first, cumsum, py_truthy_rat, py_truthy_nat, alookup]

/-- Claim C8 (amended): tooltip generation computes each party's share of
the row's total votes, sorts descending by share, optionally drops
zero-share entries, and truncates to the smaller of the explicit
party-count cap and the number of leading parties needed for the
cumulative share to strictly exceed the cutoff (a party merely tying the
cutoff does not end the list).  The claimed safety does not hold: a zero
total vote count with a nonempty party mapping raises a division-by-zero
error, and a cutoff of 1 or more (with nonnegative counts and a positive
total) raises an `IndexError` because no cumulative share exceeds it;
generation succeeds for a positive total when the cutoff is unset or
below 1. -/
theorem tooltip_truncation_and_failure_modes
    (parties : List (String × Int)) (cap : Option Nat) (pct : Option ℚ) (rz : Bool) :
    ((parties.map Prod.snd).sum = 0 → parties ≠ [] →
      generate_tooltip_parties parties cap pct rz = .error .zeroDivision)
    ∧ (∀ p, pct = some p → 1 ≤ p → 0 < (parties.map Prod.snd).sum →
      (∀ x ∈ parties, 0 ≤ x.2) →
      generate_tooltip_parties parties cap pct rz = .error .indexError)
    ∧ (0 < (parties.map Prod.snd).sum →
      (∀ p, pct = some p → p < 1) →
      (parties.map Prod.fst).Nodup →
      ∃ l, generate_tooltip_parties parties cap pct rz = .ok l
        ∧ (∃ rest, tooltip_sorted_parties parties rz
              = l.map (fun e => (e.1, e.2.2)) ++ rest)
        ∧ l.length
            = min (if py_truthy_nat cap then cap.getD 0
                   else (tooltip_sorted_parties parties rz).length)
                  (if py_truthy_rat pct then
                     least_exceed (pct.getD 0) 0
                       ((tooltip_sorted_parties parties rz).map Prod.snd)
                   else (tooltip_sorted_parties parties rz).length)
        ∧ l.Pairwise (fun a b => b.2.2 ≤ a.2.2)
        ∧ (∀ e ∈ l, alookup parties e.1 = some e.2.1
            ∧ e.2.2 = ((e.2.1 : Int) : ℚ) / (((parties.map Prod.snd).sum : Int) : ℚ))
        ∧ (rz = true → ∀ e ∈ l, e.2.2 ≠ 0)) := by
  refine ⟨?_, ?_, ?_⟩
  · -- zero total, nonempty mapping: ZeroDivisionError
    intro h0 hne
    have hpe : parties.isEmpty = false := by
      cases parties with
      | nil => exact absurd rfl hne
      | cons a l => rfl
    have hd : decide ((parties.map Prod.snd).sum = 0) = true := decide_eq_true h0
    simp [generate_tooltip_parties, hd, hpe]
  · -- cutoff at or above 1: np.where finds nothing, IndexError
    intro p hp hge htot hpos
    have hTne : ¬((parties.map Prod.snd).sum = 0) := by omega
    have htq : (0 : ℚ) < (((parties.map Prod.snd).sum : Int) : ℚ) := by exact_mod_cast htot
    have htqne : ((((parties.map Prod.snd).sum : Int)) : ℚ) ≠ 0 := ne_of_gt htq
    have hnonneg := tooltip_shares_nonneg parties rz hpos (le_of_lt htq)
    have hpredf : ∀ y ∈ cumsum 0 ((tooltip_sorted_parties parties rz).map Prod.snd),
        (decide (pct.getD 0 < y)) = false := by
      intro y hy
      have hy1 : y ≤ 1 := by
        have := cumsum_le_of_nonneg _ 0 hnonneg y hy
        rwa [zero_add, tooltip_shares_sum_one parties rz htqne] at this
      have hnlt : ¬(pct.getD 0 < y) := by
        rw [hp]
        simp only [Option.getD_some]
        linarith
      exact decide_eq_false hnlt
    have hwnone : np_where_first (fun s => decide (pct.getD 0 < s))
        (cumsum 0 ((tooltip_sorted_parties parties rz).map Prod.snd)) = none :=
      np_where_first_none _ _ hpredf
    have htruthy : py_truthy_rat pct = true := by
      have hpne : p ≠ 0 := by
        intro h0
        rw [h0] at hge
        norm_num at hge
      simp [py_truthy_rat, hp, hpne]
    have hbres2 : (if py_truthy_rat pct then
          match np_where_first (fun s => decide (pct.getD 0 < s))
              (cumsum 0 ((tooltip_sorted_parties parties rz).map Prod.snd)) with
          | some i => Except.ok (i + 1)
          | none => Except.error PyErr.indexError
        else Except.ok (tooltip_sorted_parties parties rz).length)
        = (Except.error PyErr.indexError : Except PyErr Nat) := by
      rw [if_pos htruthy, hwnone]
    simp only [generate_tooltip_parties, decide_eq_false hTne, Bool.false_and,
               Bool.false_eq_true, if_false, hbres2]
  · -- positive total, cutoff below 1: the truncated descending list
    intro htotal hpct hnodup
    have hTne : ¬((parties.map Prod.snd).sum = 0) := by omega
    have htq : (0 : ℚ) < (((parties.map Prod.snd).sum : Int) : ℚ) := by exact_mod_cast htotal
    have htqne : ((((parties.map Prod.snd).sum : Int)) : ℚ) ≠ 0 := ne_of_gt htq
    have hsum1 : ((tooltip_sorted_parties parties rz).map Prod.snd).sum = 1 :=
      tooltip_shares_sum_one parties rz htqne
    have hBle : (if py_truthy_rat pct then
          least_exceed (pct.getD 0) 0 ((tooltip_sorted_parties parties rz).map Prod.snd)
        else (tooltip_sorted_parties parties rz).length)
        ≤ (tooltip_sorted_parties parties rz).length := by
      split
      · exact le_trans (least_exceed_le_length _ _ _) (le_of_eq (List.length_map _ _))
      · exact le_refl _
    have hbres : (if py_truthy_rat pct then
          match np_where_first (fun s => decide (pct.getD 0 < s))
              (cumsum 0 ((tooltip_sorted_parties parties rz).map Prod.snd)) with
          | some i => Except.ok (i + 1)
          | none => Except.error PyErr.indexError
        else Except.ok (tooltip_sorted_parties parties rz).length)
        = Except.ok (if py_truthy_rat pct then
            least_exceed (pct.getD 0) 0 ((tooltip_sorted_parties parties rz).map Prod.snd)
          else (tooltip_sorted_parties parties rz).length) := by
      by_cases hpt : py_truthy_rat pct = true
      · have hne : tooltip_sorted_parties parties rz ≠ [] := by
          intro he
          rw [he] at hsum1
          simp at hsum1
        have hplt : pct.getD 0 < 1 := by
          cases hp : pct with
          | none => simp [hp, py_truthy_rat] at hpt
          | some q => simpa [hp] using hpct q hp
        have hlt : pct.getD 0 < 0 + ((tooltip_sorted_parties parties rz).map Prod.snd).sum := by
          rw [zero_add, hsum1]; exact hplt
        have hmapne : (tooltip_sorted_parties parties rz).map Prod.snd ≠ [] := by
          simpa using hne
        rcases np_where_first_cumsum _ (pct.getD 0) 0 hlt hmapne with ⟨hw, h1le⟩
        simp only [if_pos hpt, hw, Except.ok.injEq]
        omega
      · simp only [if_neg hpt]
    have hmain : generate_tooltip_parties parties cap pct rz
        = .ok (((tooltip_sorted_parties parties rz).take
            (min (if py_truthy_nat cap then cap.getD 0
                  else (tooltip_sorted_parties parties rz).length)
                 (if py_truthy_rat pct then
                    least_exceed (pct.getD 0) 0
                      ((tooltip_sorted_parties parties rz).map Prod.snd)
                  else (tooltip_sorted_parties parties rz).length))).map
            (fun x => (x.1, (alookup parties x.1).getD 0, x.2))) := by
      simp only [generate_tooltip_parties, decide_eq_false hTne, Bool.false_and,
                 Bool.false_eq_true, if_false, hbres]
    refine ⟨_, hmain, ?_, ?_, ?_, ?_, ?_⟩
    · refine ⟨(tooltip_sorted_parties parties rz).drop
        (min (if py_truthy_nat cap then cap.getD 0
              else (tooltip_sorted_parties parties rz).length)
             (if py_truthy_rat pct then
                least_exceed (pct.getD 0) 0
                  ((tooltip_sorted_parties parties rz).map Prod.snd)
              else (tooltip_sorted_parties parties rz).length)), ?_⟩
      rw [List.map_map]
      have hcomp : ((fun e : String × Int × ℚ => (e.1, e.2.2)) ∘
          (fun x : String × ℚ => (x.1, (alookup parties x.1).getD 0, x.2)))
          = (id : String × ℚ → String × ℚ) := by
        funext x
        rfl
      rw [hcomp, List.map_id]
      exact (List.take_append_drop _ _).symm
    · rw [List.length_map, List.length_take]
      exact min_eq_left (le_trans (min_le_right _ _) hBle)
    · have hpw : (tooltip_sorted_parties parties rz).Pairwise
          (fun a b : String × ℚ => b.2 ≤ a.2) := by
        unfold tooltip_sorted_parties
        cases rz
        · simpa using sort_desc_pairwise _
        · simp only [if_true]
          exact (sort_desc_pairwise _).filter _
      rw [List.pairwise_map]
      exact (List.Pairwise.sublist (List.take_sublist _ _) hpw).imp (fun h => h)
    · intro e he
      rcases List.mem_map.mp he with ⟨x, hx, rfl⟩
      have hx1 : x ∈ tooltip_sorted_parties parties rz := List.mem_of_mem_take hx
      have hx0 : x ∈ sort_desc_by_share (parties.map (fun p =>
          (p.1, ((p.2 : Int) : ℚ) / (((parties.map Prod.snd).sum : Int) : ℚ)))) := by
        unfold tooltip_sorted_parties at hx1
        cases rz
        · simpa using hx1
        · simp only [if_true] at hx1
          exact List.mem_of_mem_filter hx1
      have hxn := (sort_desc_perm _).mem_iff.mp hx0
      rcases List.mem_map.mp hxn with ⟨pr, hpr, rfl⟩
      have hlk : alookup parties pr.1 = some pr.2 := by
        exact alookup_of_nodup parties pr.1 pr.2 hnodup (by simpa using hpr)
      refine ⟨?_, ?_⟩
      · simp [hlk]
      · simp [hlk]
    · intro hrz e he
      rcases List.mem_map.mp he with ⟨x, hx, rfl⟩
      have hx1 : x ∈ tooltip_sorted_parties parties rz := List.mem_of_mem_take hx
      unfold tooltip_sorted_parties at hx1
      rw [hrz] at hx1
      simp only [if_true] at hx1
      have := List.of_mem_filter hx1
      simpa using this

theorem insert_geo_perm (x : (ℚ × ℚ) × Nat × String) (l : List ((ℚ × ℚ) × Nat × String)) :
    (insert_geo x l).Perm (x :: l) := by
  induction l with
  | nil => exact List.Perm.refl _
  | cons y ys ih =>
    simp only [insert_geo]
    split
    · exact List.Perm.refl _
    · exact (ih.cons y).trans (List.Perm.swap x y ys)

theorem sort_geo_perm (l : List ((ℚ × ℚ) × Nat × String)) : (sort_geo l).Perm l := by
  induction l with
  | nil => exact List.Perm.refl _
  | cons x xs ih => exact (insert_geo_perm x _).trans (ih.cons x)

theorem group_runs_mem (l : List ((ℚ × ℚ) × Nat × String)) :
    ∀ g tl, (g, tl) ∈ group_runs l → g ∈ l ∧ ∀ y ∈ tl, y ∈ l := by
  induction l with
  | nil => intro g tl h; cases h
  | cons x xs ih =>
    intro g tl h
    simp only [group_runs] at h
    revert h
    generalize hgr : group_runs xs = G
    intro h
    cases G with
    | nil =>
      simp only [List.mem_singleton, Prod.mk.injEq] at h
      rcases h with ⟨rfl, rfl⟩
      exact ⟨List.mem_cons_self _ _, by intro y hy; cases hy⟩
    | cons p rest =>
      obtain ⟨y0, grp⟩ := p
      dsimp only at h
      split at h
      · rcases List.mem_cons.mp h with heq | hmem
        · rcases Prod.mk.injEq .. |>.mp heq with ⟨rfl, rfl⟩
          have hy0 := ih y0 grp (by rw [hgr]; exact List.mem_cons_self _ _)
          refine ⟨List.mem_cons_self _ _, ?_⟩
          intro y hy
          rcases List.mem_cons.mp hy with rfl | hy
          · exact List.mem_cons_of_mem _ hy0.1
          · exact List.mem_cons_of_mem _ (hy0.2 y hy)
        · have := ih g tl (by rw [hgr]; exact List.mem_cons_of_mem _ hmem)
          exact ⟨List.mem_cons_of_mem _ this.1,
                 fun y hy => List.mem_cons_of_mem _ (this.2 y hy)⟩
      · rcases List.mem_cons.mp h with heq | hmem
        · rcases Prod.mk.injEq .. |>.mp heq with ⟨rfl, rfl⟩
          exact ⟨List.mem_cons_self _ _, by intro y hy; cases hy⟩
        · have := ih g tl (by rw [hgr]; exact hmem)
          exact ⟨List.mem_cons_of_mem _ this.1,
                 fun y hy => List.mem_cons_of_mem _ (this.2 y hy)⟩

theorem foldl_min_lt (n : Nat) :
    ∀ (tl : List ((ℚ × ℚ) × Nat × String)) (a : Nat), a < n → (∀ x ∈ tl, x.2.1 < n) →
      tl.foldl (fun acc x => Nat.min acc x.2.1) a < n := by
  intro tl
  induction tl with
  | nil => intro a ha _; exact ha
  | cons x xs ih =>
    intro a ha hall
    simp only [List.foldl_cons]
    exact ih (Nat.min a x.2.1)
      (lt_of_le_of_lt (Nat.min_le_left _ _) ha)
      (fun y hy => hall y (List.mem_cons_of_mem x hy))

theorem mem_py_enumerate {α : Type} :
    ∀ (l : List α) (i : Nat) (p : Nat × α), p ∈ py_enumerate i l →
      p.1 < i + l.length ∧ p.2 ∈ l := by
  intro l
  induction l with
  | nil => intro i p h; cases h
  | cons x xs ih =>
    intro i p h
    simp only [py_enumerate] at h
    rcases List.mem_cons.mp h with rfl | h
    · exact ⟨by simp, List.mem_cons_self x xs⟩
    · rcases ih (i + 1) p h with ⟨h1, h2⟩
      exact ⟨by simpa [Nat.add_comm, Nat.add_assoc, Nat.add_left_comm] using h1,
             List.mem_cons_of_mem x h2⟩

theorem forall₂_mem_right {α β : Type} {R : α → β → Prop} :
    ∀ {l : List α} {out : List β}, List.Forall₂ R l out → ∀ b ∈ out, ∃ a ∈ l, R a b := by
  intro l out h
  induction h with
  | nil => intro b hb; cases hb
  | cons hR hrest ih =>
    intro b hb
    rcases List.mem_cons.mp hb with rfl | hb
    · exact ⟨_, List.mem_cons_self _ _, hR⟩
    · rcases ih b hb with ⟨a, ha, hab⟩
      exact ⟨a, List.mem_cons_of_mem _ ha, hab⟩

theorem py_enumerate_mem_of_mem {α : Type} :
    ∀ (l : List α) (i : Nat) (x : α), x ∈ l → ∃ j, (j, x) ∈ py_enumerate i l := by
  intro l
  induction l with
  | nil => intro i x h; cases h
  | cons z zs ih =>
    intro i x h
    rcases List.mem_cons.mp h with rfl | h
    · exact ⟨i, List.mem_cons_self _ _⟩
    · rcases ih (i + 1) x h with ⟨j, hj⟩
      exact ⟨j, List.mem_cons_of_mem _ hj⟩

theorem debug_keyed_error (l : List (Nat × String × Option GeoDataResults)) :
    (∃ x ∈ l, x.2.2 = none) →
    emapM (fun x =>
      match x.2.2 with
      | some g => Except.ok ((g.longitude, g.latitude), x.1, x.2.1)
      | none => Except.error "AttributeError: NoneType object has no attribute longitude") l
    = .error "AttributeError: NoneType object has no attribute longitude" := by
  induction l with
  | nil => rintro ⟨x, hx, _⟩; cases hx
  | cons y ys ih =>
    rintro ⟨x, hx, hnone⟩
    rcases List.mem_cons.mp hx with rfl | hx
    · simp [emapM, hnone]
    · cases hy : y.2.2 with
      | none => simp [emapM, hy]
      | some g =>
        simp only [emapM, hy]
        rw [ih ⟨x, hx, hnone⟩]

/-- Claim C10: the debug grouping step terminates normally exactly when
every candidate address resolved; any absent fetch result makes the
sort-key evaluation inside the grouping raise an `AttributeError` rather
than being treated as a valid outcome. -/
theorem debug_fetch_absent_result_fatal (fetched : List (String × Option GeoDataResults))
    (hlen : fetched.length ≤ 4) :
    ((debug_group_candidates fetched).isOk = true ↔ ∀ x ∈ fetched, x.2 ≠ none)
    ∧ ((∃ x ∈ fetched, x.2 = none) →
        debug_group_candidates fetched
          = .error "AttributeError: NoneType object has no attribute longitude") := by
  have herr : (∃ x ∈ fetched, x.2 = none) →
      debug_group_candidates fetched
        = .error "AttributeError: NoneType object has no attribute longitude" := by
    rintro ⟨x, hx, hnone⟩
    have hex : ∃ y ∈ py_enumerate 0 fetched, y.2.2 = none := by
      rcases py_enumerate_mem_of_mem fetched 0 x hx with ⟨j, hj⟩
      exact ⟨(j, x), hj, hnone⟩
    rcases hex with ⟨y, hy, hyn⟩
    simp only [debug_group_candidates]
    rw [debug_keyed_error (py_enumerate 0 fetched) ⟨y, hy, hyn⟩]
  refine ⟨⟨?_, ?_⟩, herr⟩
  · intro hok
    by_contra hnall
    push_neg at hnall
    rw [herr hnall] at hok
    cases hok
  · intro hall
    have hside : ∀ a ∈ py_enumerate 0 fetched,
        ∃ b, (fun x : Nat × String × Option GeoDataResults =>
          match x.2.2 with
          | some g => Except.ok ((g.longitude, g.latitude), x.1, x.2.1)
          | none => Except.error "AttributeError: NoneType object has no attribute longitude") a
          = Except.ok b := by
      intro a ha
      cases hres : a.2.2 with
      | none =>
        exact absurd hres (hall a.2 (mem_py_enumerate fetched 0 a ha).2)
      | some g => exact ⟨((g.longitude, g.latitude), a.1, a.2.1), by simp [hres]⟩
    obtain ⟨keyed, hkeyed⟩ :=
      (emapM_ok_iff _ (py_enumerate 0 fetched)).mpr hside
    have hidx : ∀ y ∈ keyed, y.2.1 < 4 := by
      intro y hy
      rcases forall₂_mem_right (emapM_forall₂ _ _ _ hkeyed) y hy with ⟨a, ha, hab⟩
      rcases mem_py_enumerate fetched 0 a ha with ⟨ha1, _⟩
      cases hres : a.2.2 with
      | none => rw [hres] at hab; cases hab
      | some g =>
        rw [hres] at hab
        cases hab
        show a.1 < 4
        omega
    have hbound : ∀ r ∈ (group_runs (sort_geo keyed)).map (fun g =>
        (GeoDataResults.mk g.1.1.1 g.1.1.2,
         (g.1 :: g.2).map (fun x => (x.2.1, x.2.2)),
         group_min_idx g.1 g.2)), r.2.2 < debug_colors.length := by
      intro r hr
      rcases List.mem_map.mp hr with ⟨g, hg, rfl⟩
      rcases group_runs_mem (sort_geo keyed) g.1 g.2 (by simpa using hg) with ⟨hg1, hg2⟩
      have hs1 : g.1 ∈ keyed := (sort_geo_perm keyed).mem_iff.mp hg1
      have hlt1 : g.1.2.1 < 4 := hidx _ hs1
      show group_min_idx g.1 g.2 < 4
      exact foldl_min_lt 4 g.2 g.1.2.1 hlt1
        (fun y hy => hidx y ((sort_geo_perm keyed).mem_iff.mp (hg2 y hy)))
    obtain ⟨us, hus⟩ := (emapM_ok_iff (fun r :
        GeoDataResults × List (Nat × String) × Nat =>
        if r.2.2 < debug_colors.length then Except.ok () else Except.error "IndexError")
        ((group_runs (sort_geo keyed)).map (fun g =>
          (GeoDataResults.mk g.1.1.1 g.1.1.2,
           (g.1 :: g.2).map (fun x => (x.2.1, x.2.2)),
           group_min_idx g.1 g.2)))).mpr
      (fun r hr => ⟨(), by rw [if_pos (hbound r hr)]⟩)
    simp only [debug_group_candidates, hkeyed, hus]
    rfl

theorem debug_fetch_absent_result_fatal_witness :
    (([("x", some ⟨1, 2⟩)] : List (String × Option GeoDataResults)).length ≤ 4)
    ∧ (debug_group_candidates [("x", some ⟨1, 2⟩)]).isOk = true
    ∧ debug_group_candidates [("y", (none : Option GeoDataResults))]
        = .error "AttributeError: NoneType object has no attribute longitude" := by
  refine ⟨by decide, ?_, ?_⟩
  · exact (debug_fetch_absent_result_fatal [("x", some ⟨1, 2⟩)] (by decide)).1.mpr (by decide)
  · exact (debug_fetch_absent_result_fatal [("y", none)] (by decide)).2
      ⟨("y", none), by decide, rfl⟩

theorem tooltip_truncation_and_failure_modes_witness :
    0 < (([("a", 1), ("b", 3)] : List (String × Int)).map Prod.snd).sum
    ∧ (generate_tooltip_parties [("a", 1), ("b", 3)] none (some (1/2)) true).isOk = true
    ∧ generate_tooltip_parties [("a", 2)] none (some 3) true = .error .indexError
    ∧ generate_tooltip_parties [("c", 0)] (some 5) none true = .error .zeroDivision := by
  refine ⟨by decide, ?_, ?_, ?_⟩
  · rcases (tooltip_truncation_and_failure_modes [("a", 1), ("b", 3)] none
        (some (1/2)) true).2.2
      (by decide) (by intro p hp; cases hp; norm_num) (by decide) with ⟨l, hok, _⟩
    rw [hok]
    rfl
  · exact (tooltip_truncation_and_failure_modes [("a", 2)] none (some 3) true).2.1 3 rfl
      (by norm_num) (by decide) (by decide)
  · exact (tooltip_truncation_and_failure_modes [("c", 0)] (some 5) none true).1 (by decide)
      (by decide)

end IlElections
